import Mathlib

/-!
Shallow embedding of the I2C master driver of `tm4c-hal`
(`tm4c123x-hal/src/i2c.rs` and `tm4c129x-hal/src/i2c.rs`).

The driver talks to a memory-mapped register block.  We model the
hardware environment as:
* a finite list of `Mcs` values answering the successive reads of the
  status/command register performed by the `busy_wait!` polling loop
  (running out of answers models the unbounded loop still spinning,
  returned as `none`);
* a finite list of data values answering the successive reads of the
  data register `mdr` (defaulting to 0 when exhausted — the data values
  never influence control flow);
* an event trace recording every register access and the fixed settling
  delay, in program order.
-/

namespace I2cHw

/-- The fields of the master control/status register `mcs` as read by the
driver: error, address-NACK, data-NACK, arbitration-lost, byte-busy and
bus-busy flags. -/
structure Mcs where
  error : Bool
  adrack : Bool
  datack : Bool
  arblst : Bool
  busy : Bool
  busbsy : Bool
deriving DecidableEq, Repr

/-- The command bits written to the `mcs` register: RUN, START, STOP, ACK. -/
structure Cmd where
  run : Bool
  start : Bool
  stop : Bool
  ack : Bool
deriving DecidableEq, Repr

/-- One observable hardware interaction of the driver. -/
inductive Event where
  /-- `cortex_m::asm::delay(cycles)` -/
  | delay (cycles : Nat)
  /-- write of the slave-address register `msa`: 7-bit address and
  receive/send direction bit `rs` -/
  | writeMSA (sa : Nat) (rs : Bool)
  /-- write of the data register `mdr` -/
  | writeMDR (data : Nat)
  /-- write of the command register `mcs` -/
  | writeMCS (cmd : Cmd)
  /-- read of the status register `mcs` -/
  | readMCS (m : Mcs)
  /-- read of the data register `mdr` -/
  | readMDR (data : Nat)
deriving DecidableEq, Repr

/-- `enum Error` of the driver (the hidden `_Extensible` variant included). -/
inductive Error where
  | Bus
  | Arbitration
  | DataAck
  | AdrAck
  | Extensible
deriving DecidableEq, Repr

/-- Hardware environment plus accumulated trace threaded through a driver
operation. -/
structure HwState where
  status : List Mcs
  dataIn : List Nat
  trace : List Event
deriving DecidableEq, Repr

/-- Append one event to the trace. -/
def emit (s : HwState) (e : Event) : HwState :=
  { s with trace := s.trace ++ [e] }

/-- Read the data register: consume the next environment-provided data
value (0 when exhausted) and record the read. -/
def readDataReg (s : HwState) : HwState × Nat :=
  let d := s.dataIn.headD 0
  ({ s with dataIn := s.dataIn.tail, trace := s.trace ++ [Event.readMDR d] }, d)

/-- Keep only the writes to the address register and the command
register — the bus-command footprint of a trace. -/
def busEvents (tr : List Event) : List Event :=
  tr.filter fun e =>
    match e with
    | Event.writeMSA _ _ => true
    | Event.writeMCS _ => true
    | _ => false

/-- Keep only the command-register writes of a trace. -/
def cmdsOf (tr : List Event) : List Cmd :=
  tr.filterMap fun e =>
    match e with
    | Event.writeMCS c => some c
    | _ => none

/-- Observable effects of the constructors `I2c::i2c0` … `I2c::i2c3`:
power/reset of the clock domain, then the two register writes. -/
inductive CtorEvent where
  /-- `sysctl::control_power(pc, domain, Run, On)` -/
  | controlPower
  /-- `sysctl::reset(pc, domain)` -/
  | reset
  /-- write of the master control register `mcr`: the `mfe` bit, and
  whether any other configuration bit is set (the svd `write` API starts
  from the all-zero reset value, so only `mfe` is set) -/
  | writeMCR (mfe : Bool) (otherBitsSet : Bool)
  /-- write of the timer-period register `mtpr` -/
  | writeMTPR (tpr : Nat)
deriving DecidableEq, Repr

/-- u32 wrap-around. -/
def wrap32 (n : Nat) : Nat := n % 4294967296

end I2cHw

namespace Tm4c123x

open I2cHw

/-- The nested `if` classifying a set error flag in `busy_wait!`
(`i2c.rs` lines 74–84): address-NACK before data-NACK before generic
bus error. -/
def classify (m : Mcs) : Error :=
  if m.adrack then Error.AdrAck
  else if m.datack then Error.DataAck
  else Error.Bus

/-- The `loop` of the `busy_wait!` macro: read `mcs`; on error return the
classified error; on arbitration loss return `Error.Arbitration`; when the
monitored flag reaches its expected state, break; otherwise poll again.
The list is the finite supply of status answers; `none` models the loop
still spinning when the supply is exhausted. -/
def pollLoop (cond : Mcs → Bool) :
    List Mcs → List Event → Option (List Mcs × List Event × Option Error)
  | [], _ => none
  | m :: rest, tr =>
    if m.error then some (rest, tr ++ [Event.readMCS m], some (classify m))
    else if m.arblst then some (rest, tr ++ [Event.readMCS m], some Error.Arbitration)
    else if cond m then some (rest, tr ++ [Event.readMCS m], none)
    else pollLoop cond rest (tr ++ [Event.readMCS m])

/-- The `busy_wait!` macro: `delay(2)` (hardware settling workaround),
then the polling loop. -/
def busy_wait (cond : Mcs → Bool) (s : HwState) : Option (HwState × Option Error) :=
  match pollLoop cond s.status (s.trace ++ [Event.delay 2]) with
  | none => none
  | some (st, tr, r) => some ({ s with status := st, trace := tr }, r)

/-- `busbsy().bit_is_clear()` — the monitored condition of the
address-phase polls. -/
def busbsyClear (m : Mcs) : Bool := !m.busbsy

/-- `busy().bit_is_clear()` — the monitored condition of the
byte-transfer polls. -/
def busyClear (m : Mcs) : Bool := !m.busy

/-- Interior-byte loop of `write`: for each middle byte, poll `busy`
clear, write the byte to `mdr`, issue RUN. -/
def writeMiddle : List Nat → HwState → Option (HwState × Option Error)
  | [], s => some (s, none)
  | b :: rest, s =>
    match busy_wait busyClear s with
    | none => none
    | some (s, some e) => some (s, some e)
    | some (s, none) =>
      writeMiddle rest
        (emit (emit s (Event.writeMDR b)) (Event.writeMCS ⟨true, false, false, false⟩))

/-- Common tail of `write`: the final `busy` poll before `Ok(())`. -/
def finishWrite (s : HwState) : Option (HwState × Except Error Unit) :=
  match busy_wait busyClear s with
  | none => none
  | some (s, some e) => some (s, Except.error e)
  | some (s, none) => some (s, Except.ok ())

/-- `impl Write for I2c — fn write(&mut self, addr, bytes)`. -/
def write (addr : Nat) (bytes : List Nat) (s : HwState) :
    Option (HwState × Except Error Unit) :=
  if bytes.isEmpty then some (s, Except.ok ()) else
  match bytes with
  | [] => none -- unreachable_unchecked: guarded by the isEmpty check above
  | [b] =>
    match busy_wait busbsyClear
        (emit (emit s (Event.writeMSA addr false)) (Event.writeMDR b)) with
    | none => none
    | some (s, some e) => some (s, Except.error e)
    | some (s, none) =>
      finishWrite (emit s (Event.writeMCS ⟨true, true, true, false⟩))
  | first :: rest =>
    match busy_wait busbsyClear
        (emit (emit s (Event.writeMSA addr false)) (Event.writeMDR first)) with
    | none => none
    | some (s, some e) => some (s, Except.error e)
    | some (s, none) =>
      match writeMiddle rest.dropLast (emit s (Event.writeMCS ⟨true, true, false, false⟩)) with
      | none => none
      | some (s, some e) => some (s, Except.error e)
      | some (s, none) =>
        match busy_wait busyClear s with
        | none => none
        | some (s, some e) => some (s, Except.error e)
        | some (s, none) =>
          finishWrite (emit (emit s (Event.writeMDR (rest.getLastD 0)))
            (Event.writeMCS ⟨true, false, true, false⟩))

/-- Interior-slot loop of `read`: for each middle slot, issue RUN+ACK,
poll `busy` clear, capture a byte.  Returns the captured bytes. -/
def readMiddle : List Nat → HwState → Option (HwState × List Nat × Option Error)
  | [], s => some (s, [], none)
  | _ :: rest, s =>
    match busy_wait busyClear (emit s (Event.writeMCS ⟨true, false, false, true⟩)) with
    | none => none
    | some (s, some e) => some (s, [], some e)
    | some (s, none) =>
      match readMiddle rest (readDataReg s).1 with
      | none => none
      | some (s2, ds, r) => some (s2, (readDataReg s).2 :: ds, r)

/-- `impl Read for I2c — fn read(&mut self, addr, buffer)`.  The returned
list is the buffer contents after the call (captured bytes followed by the
untouched tail of the original buffer). -/
def read (addr : Nat) (buffer : List Nat) (s : HwState) :
    Option (HwState × List Nat × Except Error Unit) :=
  if buffer.isEmpty then some (s, buffer, Except.ok ()) else
  match busy_wait busbsyClear (emit s (Event.writeMSA addr true)) with
  | none => none
  | some (s, some e) => some (s, buffer, Except.error e)
  | some (s, none) =>
    match buffer with
    | [] => none -- unreachable_unchecked: guarded by the isEmpty check above
    | [_] =>
      match busy_wait busyClear (emit s (Event.writeMCS ⟨true, true, true, false⟩)) with
      | none => none
      | some (s, some e) => some (s, buffer, Except.error e)
      | some (s, none) =>
        some ((readDataReg s).1, [(readDataReg s).2], Except.ok ())
    | _first :: rest =>
      match busy_wait busyClear (emit s (Event.writeMCS ⟨true, true, false, true⟩)) with
      | none => none
      | some (s, some e) => some (s, buffer, Except.error e)
      | some (s, none) =>
        match readMiddle rest.dropLast (readDataReg s).1 with
        | none => none
        | some (s2, ds, some e) =>
          some (s2, (readDataReg s).2 :: ds ++ buffer.drop (1 + ds.length), Except.error e)
        | some (s2, ds, none) =>
          match busy_wait busyClear (emit s2 (Event.writeMCS ⟨true, false, true, false⟩)) with
          | none => none
          | some (s3, some e) =>
            some (s3, (readDataReg s).2 :: ds ++ buffer.drop (1 + ds.length), Except.error e)
          | some (s3, none) =>
            some ((readDataReg s3).1, (readDataReg s).2 :: ds ++ [(readDataReg s3).2],
              Except.ok ())

/-- Outgoing-byte loop of `write_read`: for each remaining send byte,
write it to `mdr`, issue RUN, poll `busy` clear. -/
def sendLoop : List Nat → HwState → Option (HwState × Option Error)
  | [], s => some (s, none)
  | b :: rest, s =>
    match busy_wait busyClear
        (emit (emit s (Event.writeMDR b)) (Event.writeMCS ⟨true, false, false, false⟩)) with
    | none => none
    | some (s, some e) => some (s, some e)
    | some (s, none) => sendLoop rest s

/-- `impl WriteRead for I2c — fn write_read(&mut self, addr, bytes, buffer)`. -/
def write_read (addr : Nat) (bytes : List Nat) (buffer : List Nat) (s : HwState) :
    Option (HwState × List Nat × Except Error Unit) :=
  match bytes, buffer with
  | [], [] => some (s, [], Except.ok ())
  | bytes, [] => (write addr bytes s).map fun p => (p.1, [], p.2)
  | [], buffer => read addr buffer s
  | sendFirst :: sendRest, recvFirst :: recvRest =>
    match busy_wait busbsyClear
        (emit (emit s (Event.writeMSA addr false)) (Event.writeMDR sendFirst)) with
    | none => none
    | some (s, some e) => some (s, recvFirst :: recvRest, Except.error e)
    | some (s, none) =>
      match busy_wait busyClear (emit s (Event.writeMCS ⟨true, true, false, false⟩)) with
      | none => none
      | some (s, some e) => some (s, recvFirst :: recvRest, Except.error e)
      | some (s, none) =>
        match sendLoop sendRest s with
        | none => none
        | some (s, some e) => some (s, recvFirst :: recvRest, Except.error e)
        | some (s, none) =>
          match recvRest with
          | [] =>
            match busy_wait busyClear (emit (emit s (Event.writeMSA addr true))
                (Event.writeMCS ⟨true, true, true, false⟩)) with
            | none => none
            | some (s, some e) => some (s, [recvFirst], Except.error e)
            | some (s, none) =>
              some ((readDataReg s).1, [(readDataReg s).2], Except.ok ())
          | _ :: _ =>
            match busy_wait busyClear (emit (emit s (Event.writeMSA addr true))
                (Event.writeMCS ⟨true, true, false, true⟩)) with
            | none => none
            | some (s, some e) => some (s, recvFirst :: recvRest, Except.error e)
            | some (s, none) =>
              match readMiddle recvRest.dropLast (readDataReg s).1 with
              | none => none
              | some (s2, ds, some e) =>
                some (s2, (readDataReg s).2 :: ds ++
                  (recvFirst :: recvRest).drop (1 + ds.length), Except.error e)
              | some (s2, ds, none) =>
                match busy_wait busyClear
                    (emit s2 (Event.writeMCS ⟨true, false, true, false⟩)) with
                | none => none
                | some (s3, some e) =>
                  some (s3, (readDataReg s).2 :: ds ++
                    (recvFirst :: recvRest).drop (1 + ds.length), Except.error e)
                | some (s3, none) =>
                  some ((readDataReg s3).1,
                    (readDataReg s).2 :: ds ++ [(readDataReg s3).2], Except.ok ())

/-- `I2c::i2c0` (the body is identical for every bus instance): after
power-on and reset, write `mcr` with only `mfe` set, compute
`tpr = ((sysclk / (2*10*freq)) - 1) as u8` in u32 arithmetic and write it
to `mtpr`.  A zero divisor (freq = 0, or 20·freq wrapping to 0 mod 2^32)
makes the Rust division panic, modelled as `none`. -/
def i2c0 (sysclk freq : Nat) : Option (List CtorEvent) :=
  let d := wrap32 (2 * 10 * freq)
  if d = 0 then none
  else
    let q := sysclk / d
    let tpr := wrap32 (q + 4294967296 - 1) % 256
    some [CtorEvent.controlPower, CtorEvent.reset,
      CtorEvent.writeMCR true false, CtorEvent.writeMTPR tpr]

end Tm4c123x

/-!
The `tm4c129x-hal/src/i2c.rs` driver: textually near-identical to the
`tm4c123x` one (same `busy_wait!` macro, same `hal!` macro body), embedded
separately from its own source file.
-/

namespace Tm4c129x

open I2cHw

/-- The nested `if` classifying a set error flag in `busy_wait!`
(`i2c.rs` lines 74–84): address-NACK before data-NACK before generic
bus error. -/
def classify (m : Mcs) : Error :=
  if m.adrack then Error.AdrAck
  else if m.datack then Error.DataAck
  else Error.Bus

/-- The `loop` of the `busy_wait!` macro: read `mcs`; on error return the
classified error; on arbitration loss return `Error.Arbitration`; when the
monitored flag reaches its expected state, break; otherwise poll again.
The list is the finite supply of status answers; `none` models the loop
still spinning when the supply is exhausted. -/
def pollLoop (cond : Mcs → Bool) :
    List Mcs → List Event → Option (List Mcs × List Event × Option Error)
  | [], _ => none
  | m :: rest, tr =>
    if m.error then some (rest, tr ++ [Event.readMCS m], some (classify m))
    else if m.arblst then some (rest, tr ++ [Event.readMCS m], some Error.Arbitration)
    else if cond m then some (rest, tr ++ [Event.readMCS m], none)
    else pollLoop cond rest (tr ++ [Event.readMCS m])

/-- The `busy_wait!` macro: `delay(2)` (hardware settling workaround),
then the polling loop. -/
def busy_wait (cond : Mcs → Bool) (s : HwState) : Option (HwState × Option Error) :=
  match pollLoop cond s.status (s.trace ++ [Event.delay 2]) with
  | none => none
  | some (st, tr, r) => some ({ s with status := st, trace := tr }, r)

/-- `busbsy().bit_is_clear()` — the monitored condition of the
address-phase polls. -/
def busbsyClear (m : Mcs) : Bool := !m.busbsy

/-- `busy().bit_is_clear()` — the monitored condition of the
byte-transfer polls. -/
def busyClear (m : Mcs) : Bool := !m.busy

/-- Interior-byte loop of `write`: for each middle byte, poll `busy`
clear, write the byte to `mdr`, issue RUN. -/
def writeMiddle : List Nat → HwState → Option (HwState × Option Error)
  | [], s => some (s, none)
  | b :: rest, s =>
    match busy_wait busyClear s with
    | none => none
    | some (s, some e) => some (s, some e)
    | some (s, none) =>
      writeMiddle rest
        (emit (emit s (Event.writeMDR b)) (Event.writeMCS ⟨true, false, false, false⟩))

/-- Common tail of `write`: the final `busy` poll before `Ok(())`. -/
def finishWrite (s : HwState) : Option (HwState × Except Error Unit) :=
  match busy_wait busyClear s with
  | none => none
  | some (s, some e) => some (s, Except.error e)
  | some (s, none) => some (s, Except.ok ())

/-- `impl Write for I2c — fn write(&mut self, addr, bytes)`. -/
def write (addr : Nat) (bytes : List Nat) (s : HwState) :
    Option (HwState × Except Error Unit) :=
  if bytes.isEmpty then some (s, Except.ok ()) else
  match bytes with
  | [] => none -- unreachable_unchecked: guarded by the isEmpty check above
  | [b] =>
    match busy_wait busbsyClear
        (emit (emit s (Event.writeMSA addr false)) (Event.writeMDR b)) with
    | none => none
    | some (s, some e) => some (s, Except.error e)
    | some (s, none) =>
      finishWrite (emit s (Event.writeMCS ⟨true, true, true, false⟩))
  | first :: rest =>
    match busy_wait busbsyClear
        (emit (emit s (Event.writeMSA addr false)) (Event.writeMDR first)) with
    | none => none
    | some (s, some e) => some (s, Except.error e)
    | some (s, none) =>
      match writeMiddle rest.dropLast (emit s (Event.writeMCS ⟨true, true, false, false⟩)) with
      | none => none
      | some (s, some e) => some (s, Except.error e)
      | some (s, none) =>
        match busy_wait busyClear s with
        | none => none
        | some (s, some e) => some (s, Except.error e)
        | some (s, none) =>
          finishWrite (emit (emit s (Event.writeMDR (rest.getLastD 0)))
            (Event.writeMCS ⟨true, false, true, false⟩))

/-- Interior-slot loop of `read`: for each middle slot, issue RUN+ACK,
poll `busy` clear, capture a byte.  Returns the captured bytes. -/
def readMiddle : List Nat → HwState → Option (HwState × List Nat × Option Error)
  | [], s => some (s, [], none)
  | _ :: rest, s =>
    match busy_wait busyClear (emit s (Event.writeMCS ⟨true, false, false, true⟩)) with
    | none => none
    | some (s, some e) => some (s, [], some e)
    | some (s, none) =>
      match readMiddle rest (readDataReg s).1 with
      | none => none
      | some (s2, ds, r) => some (s2, (readDataReg s).2 :: ds, r)

/-- `impl Read for I2c — fn read(&mut self, addr, buffer)`.  The returned
list is the buffer contents after the call (captured bytes followed by the
untouched tail of the original buffer). -/
def read (addr : Nat) (buffer : List Nat) (s : HwState) :
    Option (HwState × List Nat × Except Error Unit) :=
  if buffer.isEmpty then some (s, buffer, Except.ok ()) else
  match busy_wait busbsyClear (emit s (Event.writeMSA addr true)) with
  | none => none
  | some (s, some e) => some (s, buffer, Except.error e)
  | some (s, none) =>
    match buffer with
    | [] => none -- unreachable_unchecked: guarded by the isEmpty check above
    | [_] =>
      match busy_wait busyClear (emit s (Event.writeMCS ⟨true, true, true, false⟩)) with
      | none => none
      | some (s, some e) => some (s, buffer, Except.error e)
      | some (s, none) =>
        some ((readDataReg s).1, [(readDataReg s).2], Except.ok ())
    | _first :: rest =>
      match busy_wait busyClear (emit s (Event.writeMCS ⟨true, true, false, true⟩)) with
      | none => none
      | some (s, some e) => some (s, buffer, Except.error e)
      | some (s, none) =>
        match readMiddle rest.dropLast (readDataReg s).1 with
        | none => none
        | some (s2, ds, some e) =>
          some (s2, (readDataReg s).2 :: ds ++ buffer.drop (1 + ds.length), Except.error e)
        | some (s2, ds, none) =>
          match busy_wait busyClear (emit s2 (Event.writeMCS ⟨true, false, true, false⟩)) with
          | none => none
          | some (s3, some e) =>
            some (s3, (readDataReg s).2 :: ds ++ buffer.drop (1 + ds.length), Except.error e)
          | some (s3, none) =>
            some ((readDataReg s3).1, (readDataReg s).2 :: ds ++ [(readDataReg s3).2],
              Except.ok ())

/-- Outgoing-byte loop of `write_read`: for each remaining send byte,
write it to `mdr`, issue RUN, poll `busy` clear. -/
def sendLoop : List Nat → HwState → Option (HwState × Option Error)
  | [], s => some (s, none)
  | b :: rest, s =>
    match busy_wait busyClear
        (emit (emit s (Event.writeMDR b)) (Event.writeMCS ⟨true, false, false, false⟩)) with
    | none => none
    | some (s, some e) => some (s, some e)
    | some (s, none) => sendLoop rest s

/-- `impl WriteRead for I2c — fn write_read(&mut self, addr, bytes, buffer)`. -/
def write_read (addr : Nat) (bytes : List Nat) (buffer : List Nat) (s : HwState) :
    Option (HwState × List Nat × Except Error Unit) :=
  match bytes, buffer with
  | [], [] => some (s, [], Except.ok ())
  | bytes, [] => (write addr bytes s).map fun p => (p.1, [], p.2)
  | [], buffer => read addr buffer s
  | sendFirst :: sendRest, recvFirst :: recvRest =>
    match busy_wait busbsyClear
        (emit (emit s (Event.writeMSA addr false)) (Event.writeMDR sendFirst)) with
    | none => none
    | some (s, some e) => some (s, recvFirst :: recvRest, Except.error e)
    | some (s, none) =>
      match busy_wait busyClear (emit s (Event.writeMCS ⟨true, true, false, false⟩)) with
      | none => none
      | some (s, some e) => some (s, recvFirst :: recvRest, Except.error e)
      | some (s, none) =>
        match sendLoop sendRest s with
        | none => none
        | some (s, some e) => some (s, recvFirst :: recvRest, Except.error e)
        | some (s, none) =>
          match recvRest with
          | [] =>
            match busy_wait busyClear (emit (emit s (Event.writeMSA addr true))
                (Event.writeMCS ⟨true, true, true, false⟩)) with
            | none => none
            | some (s, some e) => some (s, [recvFirst], Except.error e)
            | some (s, none) =>
              some ((readDataReg s).1, [(readDataReg s).2], Except.ok ())
          | _ :: _ =>
            match busy_wait busyClear (emit (emit s (Event.writeMSA addr true))
                (Event.writeMCS ⟨true, true, false, true⟩)) with
            | none => none
            | some (s, some e) => some (s, recvFirst :: recvRest, Except.error e)
            | some (s, none) =>
              match readMiddle recvRest.dropLast (readDataReg s).1 with
              | none => none
              | some (s2, ds, some e) =>
                some (s2, (readDataReg s).2 :: ds ++
                  (recvFirst :: recvRest).drop (1 + ds.length), Except.error e)
              | some (s2, ds, none) =>
                match busy_wait busyClear
                    (emit s2 (Event.writeMCS ⟨true, false, true, false⟩)) with
                | none => none
                | some (s3, some e) =>
                  some (s3, (readDataReg s).2 :: ds ++
                    (recvFirst :: recvRest).drop (1 + ds.length), Except.error e)
                | some (s3, none) =>
                  some ((readDataReg s3).1,
                    (readDataReg s).2 :: ds ++ [(readDataReg s3).2], Except.ok ())

/-- `I2c::i2c0` (the body is identical for every bus instance): after
power-on and reset, write `mcr` with only `mfe` set, compute
`tpr = ((sysclk / (2*10*freq)) - 1) as u8` in u32 arithmetic and write it
to `mtpr`.  A zero divisor (freq = 0, or 20·freq wrapping to 0 mod 2^32)
makes the Rust division panic, modelled as `none`. -/
def i2c0 (sysclk freq : Nat) : Option (List CtorEvent) :=
  let d := wrap32 (2 * 10 * freq)
  if d = 0 then none
  else
    let q := sysclk / d
    let tpr := wrap32 (q + 4294967296 - 1) % 256
    some [CtorEvent.controlPower, CtorEvent.reset,
      CtorEvent.writeMCR true false, CtorEvent.writeMTPR tpr]

end Tm4c129x

/-!
The specification's stated timing formula, for comparison with the
constructor's computation.
-/

/-- The spec's timing-period formula, following its words: "computes a
timing-period register value as `round((systemClockHz / (2 * 10 *
busFrequencyHz)) - 1)`, truncated to the register's bit width" (8 bits),
with the division read as exact (rational) division. -/
def tprSpecRounded (sysclk freq : Nat) : Nat :=
  (round ((sysclk : ℚ) / (2 * 10 * freq) - 1)).toNat % 256

/-!
Lemmas about the trace projections.
-/

namespace I2cHw

@[simp] theorem emit_status (s : HwState) (e : Event) : (emit s e).status = s.status := rfl
@[simp] theorem emit_dataIn (s : HwState) (e : Event) : (emit s e).dataIn = s.dataIn := rfl
@[simp] theorem emit_trace (s : HwState) (e : Event) : (emit s e).trace = s.trace ++ [e] := rfl

@[simp] theorem readDataReg_status (s : HwState) : (readDataReg s).1.status = s.status := rfl
@[simp] theorem readDataReg_trace (s : HwState) :
    (readDataReg s).1.trace = s.trace ++ [Event.readMDR (s.dataIn.headD 0)] := rfl

@[simp] theorem busEvents_nil : busEvents [] = [] := rfl

@[simp] theorem busEvents_append (a b : List Event) :
    busEvents (a ++ b) = busEvents a ++ busEvents b :=
  List.filter_append _ _

@[simp] theorem busEvents_delay (n : Nat) : busEvents [Event.delay n] = [] := rfl
@[simp] theorem busEvents_writeMDR (d : Nat) : busEvents [Event.writeMDR d] = [] := rfl
@[simp] theorem busEvents_readMCS (m : Mcs) : busEvents [Event.readMCS m] = [] := rfl
@[simp] theorem busEvents_readMDR (d : Nat) : busEvents [Event.readMDR d] = [] := rfl
@[simp] theorem busEvents_writeMSA (a : Nat) (r : Bool) :
    busEvents [Event.writeMSA a r] = [Event.writeMSA a r] := rfl
@[simp] theorem busEvents_writeMCS (c : Cmd) :
    busEvents [Event.writeMCS c] = [Event.writeMCS c] := rfl

@[simp] theorem busEvents_cons_delay (n : Nat) (tr : List Event) :
    busEvents (Event.delay n :: tr) = busEvents tr := rfl
@[simp] theorem busEvents_cons_readMCS (m : Mcs) (tr : List Event) :
    busEvents (Event.readMCS m :: tr) = busEvents tr := rfl

@[simp] theorem busEvents_map_readMCS (ms : List Mcs) :
    busEvents (ms.map Event.readMCS) = [] := by
  induction ms with
  | nil => rfl
  | cons m rest ih => rw [List.map_cons, busEvents_cons_readMCS, ih]

@[simp] theorem cmdsOf_nil : cmdsOf [] = [] := rfl

@[simp] theorem cmdsOf_append (a b : List Event) :
    cmdsOf (a ++ b) = cmdsOf a ++ cmdsOf b :=
  List.filterMap_append _ _ _

@[simp] theorem cmdsOf_writeMSA (a : Nat) (r : Bool) :
    cmdsOf [Event.writeMSA a r] = [] := rfl
@[simp] theorem cmdsOf_writeMCS (c : Cmd) : cmdsOf [Event.writeMCS c] = [c] := rfl

/-- `cmdsOf` only looks at the events kept by `busEvents`. -/
theorem cmdsOf_busEvents (tr : List Event) : cmdsOf (busEvents tr) = cmdsOf tr := by
  induction tr with
  | nil => rfl
  | cons e rest ih => cases e <;> simp [busEvents, cmdsOf, List.filter_cons] at ih ⊢ <;>
      simpa [cmdsOf] using ih

end I2cHw

/-!
Lemmas about the polling loop of the tm4c123x driver.
-/

namespace Tm4c123x

open I2cHw

/-- A successful return of the polling loop consumed a prefix of the
status supply and appended exactly the corresponding status reads to the
trace. -/
theorem pollLoop_some_spec (cond : Mcs → Bool) :
    ∀ (st : List Mcs) (tr : List Event) (st2 : List Mcs) (tr2 : List Event)
      (r : Option Error),
      pollLoop cond st tr = some (st2, tr2, r) →
      ∃ ms, tr2 = tr ++ ms.map Event.readMCS ∧ st = ms ++ st2
  | [], tr, st2, tr2, r => by simp [pollLoop]
  | m :: rest, tr, st2, tr2, r => by
    rw [pollLoop]
    split
    · simp only [Option.some.injEq, Prod.mk.injEq]
      rintro ⟨rfl, rfl, rfl⟩
      exact ⟨[m], by simp, rfl⟩
    split
    · simp only [Option.some.injEq, Prod.mk.injEq]
      rintro ⟨rfl, rfl, rfl⟩
      exact ⟨[m], by simp, rfl⟩
    split
    · simp only [Option.some.injEq, Prod.mk.injEq]
      rintro ⟨rfl, rfl, rfl⟩
      exact ⟨[m], by simp, rfl⟩
    · intro h
      obtain ⟨ms, h1, h2⟩ :=
        pollLoop_some_spec cond rest (tr ++ [Event.readMCS m]) st2 tr2 r h
      exact ⟨m :: ms, by simp [h1], by simp [h2]⟩

/-- If no status in the supply raises an error, loses arbitration, or
satisfies the monitored condition, the polling loop consumes the entire
supply without returning — the unbounded `loop` never breaks. -/
theorem pollLoop_none (cond : Mcs → Bool) :
    ∀ (st : List Mcs) (tr : List Event),
      (∀ m ∈ st, m.error = false ∧ m.arblst = false ∧ cond m = false) →
      pollLoop cond st tr = none
  | [], _, _ => rfl
  | m :: rest, tr, h => by
    have hm := h m (by simp)
    rw [pollLoop]
    simp only [hm.1, hm.2.1, hm.2.2, Bool.false_eq_true, if_false]
    exact pollLoop_none cond rest _ (fun p hp => h p (List.mem_cons_of_mem _ hp))

/-- Non-triggering statuses at the head of the supply are consumed one by
one, each recorded as a status read. -/
theorem pollLoop_skip (cond : Mcs → Bool) :
    ∀ (pre : List Mcs) (st : List Mcs) (tr : List Event),
      (∀ p ∈ pre, p.error = false ∧ p.arblst = false ∧ cond p = false) →
      pollLoop cond (pre ++ st) tr = pollLoop cond st (tr ++ pre.map Event.readMCS)
  | [], st, tr, _ => by simp
  | p :: pre, st, tr, h => by
    have hp := h p (by simp)
    rw [List.cons_append, pollLoop]
    simp only [hp.1, hp.2.1, hp.2.2, Bool.false_eq_true, if_false]
    rw [pollLoop_skip cond pre st _ (fun q hq => h q (List.mem_cons_of_mem _ hq))]
    simp

/-- Reading a status with the error flag set makes the loop return the
classified error at once. -/
theorem pollLoop_head_error (cond : Mcs → Bool) (m : Mcs) (rest : List Mcs)
    (tr : List Event) (hm : m.error = true) :
    pollLoop cond (m :: rest) tr =
      some (rest, tr ++ [Event.readMCS m], some (classify m)) := by
  rw [pollLoop]; simp [hm]

/-- Reading a status with arbitration lost (and the error flag clear)
makes the loop return `Error.Arbitration` at once. -/
theorem pollLoop_head_arb (cond : Mcs → Bool) (m : Mcs) (rest : List Mcs)
    (tr : List Event) (hmE : m.error = false) (hm : m.arblst = true) :
    pollLoop cond (m :: rest) tr =
      some (rest, tr ++ [Event.readMCS m], some Error.Arbitration) := by
  rw [pollLoop]; simp [hm, hmE]

/-- Reading a status satisfying the monitored condition (with error and
arbitration flags clear) breaks the loop normally. -/
theorem pollLoop_head_break (cond : Mcs → Bool) (m : Mcs) (rest : List Mcs)
    (tr : List Event) (hmE : m.error = false) (hmA : m.arblst = false)
    (hc : cond m = true) :
    pollLoop cond (m :: rest) tr =
      some (rest, tr ++ [Event.readMCS m], none) := by
  rw [pollLoop]; simp [hmE, hmA, hc]

/-- Shape of any successful `busy_wait!`: the settling delay is recorded
before the status reads, only status reads are performed, a prefix of the
status supply is consumed, and the data supply is untouched. -/
theorem busy_wait_some_spec (cond : Mcs → Bool) (s s2 : HwState) (r : Option Error)
    (h : busy_wait cond s = some (s2, r)) :
    ∃ ms, s2.trace = s.trace ++ Event.delay 2 :: ms.map Event.readMCS ∧
      s.status = ms ++ s2.status ∧ s2.dataIn = s.dataIn := by
  rw [busy_wait] at h
  split at h
  · exact absurd h (by simp)
  next st tr r2 heq =>
    obtain ⟨ms, h1, h2⟩ := pollLoop_some_spec cond s.status _ st tr r2 heq
    simp only [Option.some.injEq, Prod.mk.injEq] at h
    obtain ⟨rfl, rfl⟩ := h
    exact ⟨ms, by simp [h1], h2, rfl⟩

/-- `busy_wait!` adds no bus commands and leaves the data supply alone. -/
theorem busy_wait_busEvents (cond : Mcs → Bool) (s s2 : HwState) (r : Option Error)
    (h : busy_wait cond s = some (s2, r)) :
    busEvents s2.trace = busEvents s.trace ∧ s2.dataIn = s.dataIn := by
  obtain ⟨ms, h1, _, h3⟩ := busy_wait_some_spec cond s s2 r h
  refine ⟨?_, h3⟩
  rw [h1]
  simp

end Tm4c123x

namespace Tm4c123x

open I2cHw

/-- A completed interior-byte write loop issues exactly one RUN command
per byte and no address write. -/
theorem writeMiddle_ok :
    ∀ (ms : List Nat) (s s2 : HwState), writeMiddle ms s = some (s2, none) →
      busEvents s2.trace = busEvents s.trace ++
        List.replicate ms.length (Event.writeMCS ⟨true, false, false, false⟩)
  | [], s, s2 => by
    simp only [writeMiddle, Option.some.injEq, Prod.mk.injEq, and_true]
    rintro ⟨rfl, _⟩
    simp
  | b :: rest, s, s2 => by
    rw [writeMiddle]
    cases h : busy_wait busyClear s with
    | none => simp
    | some p =>
      obtain ⟨s1, r⟩ := p
      cases r with
      | some e => simp
      | none =>
        intro h2
        have hb := (busy_wait_busEvents busyClear s s1 none h).1
        have ih := writeMiddle_ok rest _ _ h2
        simp only [emit_trace, busEvents_append] at ih
        rw [ih, hb]
        simp [List.replicate_succ]

/-- A successful final poll of `write` adds no bus commands. -/
theorem finishWrite_ok (s s2 : HwState) (h : finishWrite s = some (s2, Except.ok ())) :
    busEvents s2.trace = busEvents s.trace := by
  rw [finishWrite] at h
  cases hb : busy_wait busyClear s with
  | none => rw [hb] at h; exact absurd h (by simp)
  | some p =>
    obtain ⟨s1, r⟩ := p
    rw [hb] at h
    cases r with
    | some e => exact absurd h (by simp)
    | none =>
      simp only [Option.some.injEq, Prod.mk.injEq] at h
      obtain ⟨h1, -⟩ := h
      exact h1 ▸ (busy_wait_busEvents busyClear s s1 none hb).1

/-- A completed outgoing-byte loop of `write_read` issues exactly one RUN
command per byte and no address write. -/
theorem sendLoop_ok :
    ∀ (ms : List Nat) (s s2 : HwState), sendLoop ms s = some (s2, none) →
      busEvents s2.trace = busEvents s.trace ++
        List.replicate ms.length (Event.writeMCS ⟨true, false, false, false⟩)
  | [], s, s2 => by
    simp only [sendLoop, Option.some.injEq, Prod.mk.injEq, and_true]
    rintro ⟨rfl, _⟩
    simp
  | b :: rest, s, s2 => by
    rw [sendLoop]
    cases h : busy_wait busyClear (emit (emit s (Event.writeMDR b))
        (Event.writeMCS ⟨true, false, false, false⟩)) with
    | none => simp
    | some p =>
      obtain ⟨s1, r⟩ := p
      cases r with
      | some e => simp
      | none =>
        intro h2
        have hb := (busy_wait_busEvents busyClear _ s1 none h).1
        have ih := sendLoop_ok rest _ _ h2
        simp only [emit_trace, busEvents_append] at hb
        rw [ih, hb]
        simp [List.replicate_succ]

/-- Any return of the interior-slot read loop captured at most one byte
per slot; a normal return captured exactly one per slot.  The bus-command
footprint of a normal return is one RUN+ACK command per slot. -/
theorem readMiddle_spec :
    ∀ (ms : List Nat) (s s2 : HwState) (ds : List Nat) (r : Option Error),
      readMiddle ms s = some (s2, ds, r) →
      ds.length ≤ ms.length ∧
      (r = none →
        ds.length = ms.length ∧
        busEvents s2.trace = busEvents s.trace ++
          List.replicate ms.length (Event.writeMCS ⟨true, false, false, true⟩))
  | [], s, s2, ds, r => by
    simp only [readMiddle, Option.some.injEq, Prod.mk.injEq]
    rintro ⟨rfl, rfl, rfl⟩
    simp
  | b :: rest, s, s2, ds, r => by
    rw [readMiddle]
    intro h0
    split at h0
    · exact absurd h0 (by simp)
    next s1 e heq =>
      simp only [Option.some.injEq, Prod.mk.injEq] at h0
      obtain ⟨rfl, rfl, rfl⟩ := h0
      simp
    next s1 heq =>
      split at h0
      · exact absurd h0 (by simp)
      next s3 ds3 r3 heq2 =>
        simp only [Option.some.injEq, Prod.mk.injEq] at h0
        obtain ⟨rfl, rfl, rfl⟩ := h0
        have hb := (busy_wait_busEvents busyClear _ s1 none heq).1
        simp only [emit_trace, busEvents_append] at hb
        obtain ⟨ih1, ih2⟩ := readMiddle_spec rest _ _ ds3 r3 heq2
        refine ⟨by simpa using Nat.succ_le_succ ih1, fun hr => ?_⟩
        obtain ⟨ihl, ihb⟩ := ih2 hr
        refine ⟨by simpa using ihl, ?_⟩
        rw [ihb]
        simp only [readDataReg_trace, busEvents_append, busEvents_readMDR]
        rw [hb]
        simp [List.replicate_succ]

end Tm4c123x

namespace Tm4c123x

open I2cHw

/-- Bus-command footprint of a successful one-byte `write`: the address
write, then a single START+STOP+RUN command. -/
theorem write_ok_single (addr b : Nat) (s s2 : HwState)
    (h : write addr [b] s = some (s2, Except.ok ())) :
    busEvents s2.trace = busEvents s.trace ++
      [Event.writeMSA addr false, Event.writeMCS ⟨true, true, true, false⟩] := by
  rw [write] at h
  simp only [List.isEmpty_cons, Bool.false_eq_true, if_false] at h
  split at h
  · exact absurd h (by simp)
  next s1 e heq => exact absurd h (by simp)
  next s1 heq =>
    have h1 := (busy_wait_busEvents busbsyClear _ s1 none heq).1
    have h2 := finishWrite_ok _ _ h
    simp only [emit_trace, busEvents_append] at h1 h2
    rw [h2, h1]
    simp

/-- Bus-command footprint of a successful multi-byte `write`: the address
write, START+RUN, one RUN per interior byte, then STOP+RUN. -/
theorem write_ok_multi (addr first : Nat) (rest : List Nat) (hr : rest ≠ [])
    (s s2 : HwState) (h : write addr (first :: rest) s = some (s2, Except.ok ())) :
    busEvents s2.trace = busEvents s.trace ++
      [Event.writeMSA addr false, Event.writeMCS ⟨true, true, false, false⟩] ++
      List.replicate (rest.length - 1) (Event.writeMCS ⟨true, false, false, false⟩) ++
      [Event.writeMCS ⟨true, false, true, false⟩] := by
  cases rest with
  | nil => exact absurd rfl hr
  | cons b2 rest2 =>
    simp only [write, List.isEmpty_cons, Bool.false_eq_true, if_false] at h
    split at h
    · exact absurd h (by simp)
    next s1 e heq => exact absurd h (by simp)
    next s1 heq =>
      have h1 := (busy_wait_busEvents busbsyClear _ s1 none heq).1
      split at h
      · exact absurd h (by simp)
      next s3 e heq2 => exact absurd h (by simp)
      next s3 heq2 =>
        have h3 := writeMiddle_ok _ _ _ heq2
        split at h
        · exact absurd h (by simp)
        next s4 e heq3 => exact absurd h (by simp)
        next s4 heq3 =>
          have h4 := (busy_wait_busEvents busyClear _ s4 none heq3).1
          have h5 := finishWrite_ok _ _ h
          simp only [emit_trace, busEvents_append, List.length_dropLast,
            List.length_cons] at h1 h3 h4 h5
          rw [h5, h4, h3, h1]
          simp

/-- Bus-command footprint of a successful one-slot `read`: the address
write with the receive bit, then a single RUN+START+STOP command. -/
theorem read_ok_single (addr b : Nat) (s s2 : HwState) (buf2 : List Nat)
    (h : read addr [b] s = some (s2, buf2, Except.ok ())) :
    busEvents s2.trace = busEvents s.trace ++
      [Event.writeMSA addr true, Event.writeMCS ⟨true, true, true, false⟩] := by
  rw [read] at h
  simp only [List.isEmpty_cons, Bool.false_eq_true, if_false] at h
  split at h
  · exact absurd h (by simp)
  next s1 e heq => exact absurd h (by simp)
  next s1 heq =>
    have h1 := (busy_wait_busEvents busbsyClear _ s1 none heq).1
    split at h
    · exact absurd h (by simp)
    next s3 e heq2 => exact absurd h (by simp)
    next s3 heq2 =>
      have h3 := (busy_wait_busEvents busyClear _ s3 none heq2).1
      simp only [Option.some.injEq, Prod.mk.injEq] at h
      obtain ⟨h4, -⟩ := h
      simp only [emit_trace, busEvents_append] at h1 h3
      rw [← h4]
      simp only [readDataReg_trace, busEvents_append, busEvents_readMDR]
      rw [h3, h1]
      simp

/-- Bus-command footprint of a successful multi-slot `read`: the address
write with the receive bit, START+RUN+ACK, one RUN+ACK per interior slot,
then RUN+STOP. -/
theorem read_ok_multi (addr x : Nat) (rest : List Nat) (hr : rest ≠ [])
    (s s2 : HwState) (buf2 : List Nat)
    (h : read addr (x :: rest) s = some (s2, buf2, Except.ok ())) :
    busEvents s2.trace = busEvents s.trace ++
      [Event.writeMSA addr true, Event.writeMCS ⟨true, true, false, true⟩] ++
      List.replicate (rest.length - 1) (Event.writeMCS ⟨true, false, false, true⟩) ++
      [Event.writeMCS ⟨true, false, true, false⟩] := by
  cases rest with
  | nil => exact absurd rfl hr
  | cons b2 rest2 =>
    simp only [read, List.isEmpty_cons, Bool.false_eq_true, if_false] at h
    split at h
    · exact absurd h (by simp)
    next s1 e heq => exact absurd h (by simp)
    next s1 heq =>
      have h1 := (busy_wait_busEvents busbsyClear _ s1 none heq).1
      split at h
      · exact absurd h (by simp)
      next s3 e heq2 => exact absurd h (by simp)
      next s3 heq2 =>
        have h3 := (busy_wait_busEvents busyClear _ s3 none heq2).1
        split at h
        · exact absurd h (by simp)
        next s4 ds e heq3 => exact absurd h (by simp)
        next s4 ds heq3 =>
          have h4 := ((readMiddle_spec _ _ _ ds none heq3).2 rfl).2
          split at h
          · exact absurd h (by simp)
          next s5 e heq4 => exact absurd h (by simp)
          next s5 heq4 =>
            have h5 := (busy_wait_busEvents busyClear _ s5 none heq4).1
            simp only [Option.some.injEq, Prod.mk.injEq] at h
            obtain ⟨h6, -⟩ := h
            simp only [emit_trace, busEvents_append, readDataReg_trace,
              busEvents_readMDR, List.length_dropLast, List.length_cons] at h1 h3 h4 h5
            rw [← h6]
            simp only [readDataReg_trace, busEvents_append, busEvents_readMDR]
            rw [h5, h4, h3, h1]
            simp

/-- Bus-command footprint of a successful combined `write_read` with
non-empty send bytes and non-empty receive buffer: write-direction
address write, START+RUN, one RUN per further send byte, read-direction
address write (no STOP in between), then the receive commands —
RUN+START+STOP for a single slot, otherwise RUN+START+ACK, one RUN+ACK
per interior slot, and RUN+STOP. -/
theorem write_read_ok (addr sendFirst : Nat) (sendRest : List Nat)
    (recvFirst : Nat) (recvRest : List Nat) (s s2 : HwState) (buf2 : List Nat)
    (h : write_read addr (sendFirst :: sendRest) (recvFirst :: recvRest) s =
      some (s2, buf2, Except.ok ())) :
    busEvents s2.trace = busEvents s.trace ++
      [Event.writeMSA addr false, Event.writeMCS ⟨true, true, false, false⟩] ++
      List.replicate sendRest.length (Event.writeMCS ⟨true, false, false, false⟩) ++
      [Event.writeMSA addr true] ++
      (if recvRest = [] then [Event.writeMCS ⟨true, true, true, false⟩]
       else Event.writeMCS ⟨true, true, false, true⟩ ::
         (List.replicate (recvRest.length - 1) (Event.writeMCS ⟨true, false, false, true⟩) ++
          [Event.writeMCS ⟨true, false, true, false⟩])) := by
  cases recvRest with
  | nil =>
    simp only [write_read] at h
    split at h
    · exact absurd h (by simp)
    next s1 e heq => exact absurd h (by simp)
    next s1 heq =>
      have h1 := (busy_wait_busEvents busbsyClear _ s1 none heq).1
      split at h
      · exact absurd h (by simp)
      next s3 e heq2 => exact absurd h (by simp)
      next s3 heq2 =>
        have h3 := (busy_wait_busEvents busyClear _ s3 none heq2).1
        split at h
        · exact absurd h (by simp)
        next s4 e heq3 => exact absurd h (by simp)
        next s4 heq3 =>
          have h4 := sendLoop_ok _ _ _ heq3
          split at h
          · exact absurd h (by simp)
          next s5 e heq4 => exact absurd h (by simp)
          next s5 heq4 =>
            have h5 := (busy_wait_busEvents busyClear _ s5 none heq4).1
            simp only [Option.some.injEq, Prod.mk.injEq] at h
            obtain ⟨h6, -⟩ := h
            simp only [emit_trace, busEvents_append] at h1 h3 h4 h5
            rw [← h6]
            simp only [readDataReg_trace, busEvents_append, busEvents_readMDR]
            rw [h5, h4, h3, h1]
            simp
  | cons r2 recvRest2 =>
    simp only [write_read] at h
    split at h
    · exact absurd h (by simp)
    next s1 e heq => exact absurd h (by simp)
    next s1 heq =>
      have h1 := (busy_wait_busEvents busbsyClear _ s1 none heq).1
      split at h
      · exact absurd h (by simp)
      next s3 e heq2 => exact absurd h (by simp)
      next s3 heq2 =>
        have h3 := (busy_wait_busEvents busyClear _ s3 none heq2).1
        split at h
        · exact absurd h (by simp)
        next s4 e heq3 => exact absurd h (by simp)
        next s4 heq3 =>
          have h4 := sendLoop_ok _ _ _ heq3
          split at h
          · exact absurd h (by simp)
          next s5 e heq4 => exact absurd h (by simp)
          next s5 heq4 =>
            have h5 := (busy_wait_busEvents busyClear _ s5 none heq4).1
            split at h
            · exact absurd h (by simp)
            next s6 ds e heq5 => exact absurd h (by simp)
            next s6 ds heq5 =>
              have h6 := ((readMiddle_spec _ _ _ ds none heq5).2 rfl).2
              split at h
              · exact absurd h (by simp)
              next s7 e heq6 => exact absurd h (by simp)
              next s7 heq6 =>
                have h7 := (busy_wait_busEvents busyClear _ s7 none heq6).1
                simp only [Option.some.injEq, Prod.mk.injEq] at h
                obtain ⟨h8, -⟩ := h
                simp only [emit_trace, busEvents_append, readDataReg_trace,
                  busEvents_readMDR, List.length_dropLast, List.length_cons]
                  at h1 h3 h4 h5 h6 h7
                rw [← h8]
                simp only [readDataReg_trace, busEvents_append, busEvents_readMDR]
                rw [h7, h6, h5, h4, h3, h1]
                simp

end Tm4c123x

/-!
Pointwise equality of the two macro-generated driver variants.
-/

namespace VariantEq

open I2cHw

theorem classify_eq : @Tm4c129x.classify = @Tm4c123x.classify := rfl

theorem pollLoop_eq (cond : Mcs → Bool) :
    ∀ (st : List Mcs) (tr : List Event),
      Tm4c129x.pollLoop cond st tr = Tm4c123x.pollLoop cond st tr
  | [], _ => rfl
  | m :: rest, tr => by
    simp only [Tm4c129x.pollLoop, Tm4c123x.pollLoop, classify_eq,
      pollLoop_eq cond rest]

theorem pollLoop_eqF : @Tm4c129x.pollLoop = @Tm4c123x.pollLoop := by
  funext cond st tr
  exact pollLoop_eq cond st tr

theorem busy_wait_eqF : @Tm4c129x.busy_wait = @Tm4c123x.busy_wait := by
  funext cond s
  simp only [Tm4c129x.busy_wait, Tm4c123x.busy_wait, pollLoop_eqF]

theorem busbsyClear_eqF : @Tm4c129x.busbsyClear = @Tm4c123x.busbsyClear := rfl

theorem busyClear_eqF : @Tm4c129x.busyClear = @Tm4c123x.busyClear := rfl

theorem writeMiddle_eq :
    ∀ (ms : List Nat) (s : HwState),
      Tm4c129x.writeMiddle ms s = Tm4c123x.writeMiddle ms s
  | [], _ => rfl
  | b :: rest, s => by
    simp only [Tm4c129x.writeMiddle, Tm4c123x.writeMiddle, busy_wait_eqF,
      busyClear_eqF, writeMiddle_eq rest]

theorem writeMiddle_eqF : @Tm4c129x.writeMiddle = @Tm4c123x.writeMiddle := by
  funext ms s
  exact writeMiddle_eq ms s

theorem finishWrite_eqF : @Tm4c129x.finishWrite = @Tm4c123x.finishWrite := by
  funext s
  simp only [Tm4c129x.finishWrite, Tm4c123x.finishWrite, busy_wait_eqF, busyClear_eqF]

theorem write_eqF : @Tm4c129x.write = @Tm4c123x.write := by
  funext addr bytes s
  simp only [Tm4c129x.write, Tm4c123x.write, busy_wait_eqF, busbsyClear_eqF,
    busyClear_eqF, writeMiddle_eqF, finishWrite_eqF]

theorem readMiddle_eq :
    ∀ (ms : List Nat) (s : HwState),
      Tm4c129x.readMiddle ms s = Tm4c123x.readMiddle ms s
  | [], _ => rfl
  | b :: rest, s => by
    simp only [Tm4c129x.readMiddle, Tm4c123x.readMiddle, busy_wait_eqF,
      busyClear_eqF, readMiddle_eq rest]

theorem readMiddle_eqF : @Tm4c129x.readMiddle = @Tm4c123x.readMiddle := by
  funext ms s
  exact readMiddle_eq ms s

theorem read_eqF : @Tm4c129x.read = @Tm4c123x.read := by
  funext addr buffer s
  simp only [Tm4c129x.read, Tm4c123x.read, busy_wait_eqF, busbsyClear_eqF,
    busyClear_eqF, readMiddle_eqF]

theorem sendLoop_eq :
    ∀ (ms : List Nat) (s : HwState),
      Tm4c129x.sendLoop ms s = Tm4c123x.sendLoop ms s
  | [], _ => rfl
  | b :: rest, s => by
    simp only [Tm4c129x.sendLoop, Tm4c123x.sendLoop, busy_wait_eqF,
      busyClear_eqF, sendLoop_eq rest]

theorem sendLoop_eqF : @Tm4c129x.sendLoop = @Tm4c123x.sendLoop := by
  funext ms s
  exact sendLoop_eq ms s

theorem write_read_eqF : @Tm4c129x.write_read = @Tm4c123x.write_read := by
  funext addr bytes buffer s
  simp only [Tm4c129x.write_read, Tm4c123x.write_read, busy_wait_eqF,
    busbsyClear_eqF, busyClear_eqF, readMiddle_eqF, sendLoop_eqF, write_eqF, read_eqF]

theorem i2c0_eqF : @Tm4c129x.i2c0 = @Tm4c123x.i2c0 := rfl

end VariantEq

/-!
Frame lemmas: an aborted receive leaves the untouched buffer tail intact.
-/

namespace I2cHw

/-- Writing a prefix of captured bytes over a buffer leaves every later
slot unchanged. -/
theorem append_drop_getD (capt buffer : List Nat) (i : Nat) (hi : capt.length ≤ i) :
    (capt ++ buffer.drop capt.length).getD i 0 = buffer.getD i 0 := by
  rw [List.getD_append_right _ _ _ _ hi, List.getD_eq_getElem?_getD,
    List.getD_eq_getElem?_getD, List.getElem?_drop]
  have hii : capt.length + (i - capt.length) = i := by omega
  rw [hii]

/-- Writing a prefix of captured bytes over a buffer preserves its length. -/
theorem append_drop_length (capt buffer : List Nat) (hle : capt.length ≤ buffer.length) :
    (capt ++ buffer.drop capt.length).length = buffer.length := by
  simp [List.length_drop]
  omega

end I2cHw

namespace Tm4c123x

open I2cHw

/-- When `read` aborts with an error, the returned buffer is the captured
prefix followed by the untouched tail of the original buffer. -/
theorem read_err_frame (addr : Nat) (buffer : List Nat) (s s2 : HwState)
    (buf2 : List Nat) (e : Error)
    (h : read addr buffer s = some (s2, buf2, Except.error e)) :
    ∃ capt : List Nat, capt.length ≤ buffer.length ∧
      buf2 = capt ++ buffer.drop capt.length := by
  cases buffer with
  | nil => simp [read] at h
  | cons x rest =>
    cases rest with
    | nil =>
      simp only [read, List.isEmpty_cons, Bool.false_eq_true, if_false] at h
      split at h
      · exact absurd h (by simp)
      next s1 e1 heq =>
        simp only [Option.some.injEq, Prod.mk.injEq] at h
        obtain ⟨-, h2, -⟩ := h
        exact ⟨[], by simp, by simp [← h2]⟩
      next s1 heq =>
        split at h
        · exact absurd h (by simp)
        next s3 e3 heq2 =>
          simp only [Option.some.injEq, Prod.mk.injEq] at h
          obtain ⟨-, h2, -⟩ := h
          exact ⟨[], by simp, by simp [← h2]⟩
        next s3 heq2 => exact absurd h (by simp)
    | cons b2 rest2 =>
      simp only [read, List.isEmpty_cons, Bool.false_eq_true, if_false] at h
      split at h
      · exact absurd h (by simp)
      next s1 e1 heq =>
        simp only [Option.some.injEq, Prod.mk.injEq] at h
        obtain ⟨-, h2, -⟩ := h
        exact ⟨[], by simp, by simp [← h2]⟩
      next s1 heq =>
        split at h
        · exact absurd h (by simp)
        next s3 e3 heq2 =>
          simp only [Option.some.injEq, Prod.mk.injEq] at h
          obtain ⟨-, h2, -⟩ := h
          exact ⟨[], by simp, by simp [← h2]⟩
        next s3 heq2 =>
          split at h
          · exact absurd h (by simp)
          next s4 ds e4 heq3 =>
            have hds := (readMiddle_spec _ _ _ ds (some e4) heq3).1
            simp only [List.length_dropLast, List.length_cons] at hds
            simp only [Option.some.injEq, Prod.mk.injEq] at h
            obtain ⟨-, h2, -⟩ := h
            refine ⟨(readDataReg s3).2 :: ds, by simp; omega, ?_⟩
            rw [← h2]
            simp [Nat.add_comm]
          next s4 ds heq3 =>
            have hds := (readMiddle_spec _ _ _ ds none heq3).1
            simp only [List.length_dropLast, List.length_cons] at hds
            split at h
            · exact absurd h (by simp)
            next s5 e5 heq4 =>
              simp only [Option.some.injEq, Prod.mk.injEq] at h
              obtain ⟨-, h2, -⟩ := h
              refine ⟨(readDataReg s3).2 :: ds, by simp; omega, ?_⟩
              rw [← h2]
              simp [Nat.add_comm]
            next s5 heq4 => exact absurd h (by simp)

/-- When `write_read` aborts with an error, the returned buffer is the
captured prefix followed by the untouched tail of the original buffer. -/
theorem write_read_err_frame (addr : Nat) (bytes buffer : List Nat) (s s2 : HwState)
    (buf2 : List Nat) (e : Error)
    (h : write_read addr bytes buffer s = some (s2, buf2, Except.error e)) :
    ∃ capt : List Nat, capt.length ≤ buffer.length ∧
      buf2 = capt ++ buffer.drop capt.length := by
  cases bytes with
  | nil =>
    cases buffer with
    | nil => simp [write_read] at h
    | cons x rest => exact read_err_frame addr (x :: rest) s s2 buf2 e h
  | cons sf sr =>
    cases buffer with
    | nil =>
      simp only [write_read, Option.map_eq_some'] at h
      obtain ⟨p, -, h2⟩ := h
      simp only [Prod.mk.injEq] at h2
      exact ⟨[], by simp, by simp [← h2.2.1]⟩
    | cons rf rr =>
      cases rr with
      | nil =>
        simp only [write_read] at h
        split at h
        · exact absurd h (by simp)
        next s1 e1 heq =>
          simp only [Option.some.injEq, Prod.mk.injEq] at h
          obtain ⟨-, h2, -⟩ := h
          exact ⟨[], by simp, by simp [← h2]⟩
        next s1 heq =>
          split at h
          · exact absurd h (by simp)
          next s3 e3 heq2 =>
            simp only [Option.some.injEq, Prod.mk.injEq] at h
            obtain ⟨-, h2, -⟩ := h
            exact ⟨[], by simp, by simp [← h2]⟩
          next s3 heq2 =>
            split at h
            · exact absurd h (by simp)
            next s4 e4 heq3 =>
              simp only [Option.some.injEq, Prod.mk.injEq] at h
              obtain ⟨-, h2, -⟩ := h
              exact ⟨[], by simp, by simp [← h2]⟩
            next s4 heq3 =>
              split at h
              · exact absurd h (by simp)
              next s5 e5 heq4 =>
                simp only [Option.some.injEq, Prod.mk.injEq] at h
                obtain ⟨-, h2, -⟩ := h
                exact ⟨[], by simp, by simp [← h2]⟩
              next s5 heq4 => exact absurd h (by simp)
      | cons r2 rr2 =>
        simp only [write_read] at h
        split at h
        · exact absurd h (by simp)
        next s1 e1 heq =>
          simp only [Option.some.injEq, Prod.mk.injEq] at h
          obtain ⟨-, h2, -⟩ := h
          exact ⟨[], by simp, by simp [← h2]⟩
        next s1 heq =>
          split at h
          · exact absurd h (by simp)
          next s3 e3 heq2 =>
            simp only [Option.some.injEq, Prod.mk.injEq] at h
            obtain ⟨-, h2, -⟩ := h
            exact ⟨[], by simp, by simp [← h2]⟩
          next s3 heq2 =>
            split at h
            · exact absurd h (by simp)
            next s4 e4 heq3 =>
              simp only [Option.some.injEq, Prod.mk.injEq] at h
              obtain ⟨-, h2, -⟩ := h
              exact ⟨[], by simp, by simp [← h2]⟩
            next s4 heq3 =>
              split at h
              · exact absurd h (by simp)
              next s5 e5 heq4 =>
                simp only [Option.some.injEq, Prod.mk.injEq] at h
                obtain ⟨-, h2, -⟩ := h
                exact ⟨[], by simp, by simp [← h2]⟩
              next s5 heq4 =>
                split at h
                · exact absurd h (by simp)
                next s6 ds e6 heq5 =>
                  have hds := (readMiddle_spec _ _ _ ds (some e6) heq5).1
                  simp only [List.length_dropLast, List.length_cons] at hds
                  simp only [Option.some.injEq, Prod.mk.injEq] at h
                  obtain ⟨-, h2, -⟩ := h
                  refine ⟨(readDataReg s5).2 :: ds, by simp; omega, ?_⟩
                  rw [← h2]
                  simp [Nat.add_comm]
                next s6 ds heq5 =>
                  have hds := (readMiddle_spec _ _ _ ds none heq5).1
                  simp only [List.length_dropLast, List.length_cons] at hds
                  split at h
                  · exact absurd h (by simp)
                  next s7 e7 heq6 =>
                    simp only [Option.some.injEq, Prod.mk.injEq] at h
                    obtain ⟨-, h2, -⟩ := h
                    refine ⟨(readDataReg s5).2 :: ds, by simp; omega, ?_⟩
                    rw [← h2]
                    simp [Nat.add_comm]
                  next s7 heq6 => exact absurd h (by simp)

end Tm4c123x

/-!
Further trace-projection helpers.
-/

namespace I2cHw

@[simp] theorem cmdsOf_cons_writeMCS (c : Cmd) (tr : List Event) :
    cmdsOf (Event.writeMCS c :: tr) = c :: cmdsOf tr := rfl

@[simp] theorem cmdsOf_cons_writeMSA (a : Nat) (r : Bool) (tr : List Event) :
    cmdsOf (Event.writeMSA a r :: tr) = cmdsOf tr := rfl

@[simp] theorem cmdsOf_replicate_writeMCS (n : Nat) (c : Cmd) :
    cmdsOf (List.replicate n (Event.writeMCS c)) = List.replicate n c := by
  induction n with
  | zero => rfl
  | succ k ih => simp [List.replicate_succ, ih]

end I2cHw

/-!
The claims.
-/

namespace Claims

open I2cHw Tm4c123x

/-- C3: for every address, `write` with an empty byte sequence and `read`
with an empty buffer succeed immediately leaving the hardware state (and
thus the trace — zero register writes) unchanged; `write_read` with both
sequences empty succeeds with no register access, with an empty receive
buffer it delegates exactly to `write`, and with empty send bytes it
delegates exactly to `read`. -/
theorem claim_C3 (addr : Nat) (s : HwState) :
    write addr [] s = some (s, Except.ok ()) ∧
    read addr [] s = some (s, [], Except.ok ()) ∧
    write_read addr [] [] s = some (s, [], Except.ok ()) ∧
    (∀ bytes : List Nat, write_read addr bytes [] s =
      (write addr bytes s).map fun p => (p.1, [], p.2)) ∧
    (∀ buffer : List Nat, write_read addr [] buffer s = read addr buffer s) := by
  refine ⟨rfl, rfl, rfl, ?_, ?_⟩
  · intro bytes
    cases bytes with
    | nil => rfl
    | cons b bs => rfl
  · intro buffer
    cases buffer with
    | nil => rfl
    | cons x xs => rfl

/-- C4: whenever a poll observes the error flag set, the returned error
follows the fixed sub-flag priority — address-NACK first, then data-NACK,
else the generic bus error; in particular with the address-NACK sub-flag
set the result is `AdrAck`, never `DataAck` or `Bus`. -/
theorem claim_C4 (cond : Mcs → Bool) (s : HwState) (pre : List Mcs) (m : Mcs)
    (rest : List Mcs) (hst : s.status = pre ++ m :: rest)
    (hpre : ∀ p ∈ pre, p.error = false ∧ p.arblst = false ∧ cond p = false)
    (hm : m.error = true) :
    ∃ s2, busy_wait cond s = some (s2, some (classify m)) ∧
      classify m = (if m.adrack then Error.AdrAck
        else if m.datack then Error.DataAck else Error.Bus) ∧
      (m.adrack = true → classify m = Error.AdrAck ∧
        classify m ≠ Error.DataAck ∧ classify m ≠ Error.Bus) := by
  refine ⟨?_, ?_, rfl, ?_⟩
  · exact ⟨rest, s.dataIn, (s.trace ++ [Event.delay 2]) ++ (pre ++ [m]).map Event.readMCS⟩
  · rw [busy_wait, hst, pollLoop_skip cond pre (m :: rest) _ hpre,
      pollLoop_head_error cond m rest _ hm]
    simp
  · intro ha
    simp [classify, ha]

/-- C5 (amended): if a poll observes the arbitration-loss flag set while
the error flag is clear, the operation returns `Error.Arbitration`,
whatever the monitored condition (i.e. whichever byte-step the poll
belongs to).  The amendment: the source checks the error flag first, so a
status with both flags set yields the classified bus error instead. -/
theorem claim_C5_amended (cond : Mcs → Bool) (s : HwState) (pre : List Mcs)
    (m : Mcs) (rest : List Mcs) (hst : s.status = pre ++ m :: rest)
    (hpre : ∀ p ∈ pre, p.error = false ∧ p.arblst = false ∧ cond p = false)
    (hmA : m.arblst = true) (hmE : m.error = false) :
    ∃ s2, busy_wait cond s = some (s2, some Error.Arbitration) := by
  refine ⟨⟨rest, s.dataIn,
    (s.trace ++ [Event.delay 2]) ++ (pre ++ [m]).map Event.readMCS⟩, ?_⟩
  rw [busy_wait, hst, pollLoop_skip cond pre (m :: rest) _ hpre,
    pollLoop_head_arb cond m rest _ hmE hmA]
  simp

/-- C5 (counterexample): a status read with both the error flag and the
arbitration-loss flag set makes `write` return the classified `Bus`
error, not `Arbitration` — refuting the claim that an observed
arbitration-loss bit always yields the arbitration error. -/
theorem claim_C5_cex :
    write 80 [170] ⟨[⟨true, false, false, true, true, true⟩], [], []⟩ =
      some (⟨[], [], [Event.writeMSA 80 false, Event.writeMDR 170, Event.delay 2,
        Event.readMCS ⟨true, false, false, true, true, true⟩]⟩,
        Except.error Error.Bus) ∧
    Error.Bus ≠ Error.Arbitration := by
  exact ⟨rfl, by decide⟩

/-- C9: the tm4c123x and tm4c129x drivers are behaviourally equivalent —
for every address, byte sequence, buffer, and hardware environment the
two variants produce the identical register-access trace and result, for
`write`, `read`, `write_read`, the poller and the constructor. -/
theorem claim_C9 :
    (∀ (addr : Nat) (bytes : List Nat) (s : HwState),
      Tm4c129x.write addr bytes s = Tm4c123x.write addr bytes s) ∧
    (∀ (addr : Nat) (buffer : List Nat) (s : HwState),
      Tm4c129x.read addr buffer s = Tm4c123x.read addr buffer s) ∧
    (∀ (addr : Nat) (bytes buffer : List Nat) (s : HwState),
      Tm4c129x.write_read addr bytes buffer s =
        Tm4c123x.write_read addr bytes buffer s) ∧
    (∀ (cond : Mcs → Bool) (s : HwState),
      Tm4c129x.busy_wait cond s = Tm4c123x.busy_wait cond s) ∧
    (∀ sysclk freq : Nat, Tm4c129x.i2c0 sysclk freq = Tm4c123x.i2c0 sysclk freq) := by
  refine ⟨?_, ?_, ?_, ?_, ?_⟩ <;> intros <;>
    simp only [VariantEq.write_eqF, VariantEq.read_eqF, VariantEq.write_read_eqF,
      VariantEq.busy_wait_eqF, VariantEq.i2c0_eqF]

end Claims

namespace Claims

open I2cHw Tm4c123x

/-- C6 (counterexample): at sysclk = 54 MHz and bus frequency 400 kHz the
constructor writes timing value 5 (truncating integer division), while
the spec's formula `round(sysclk/(2*10*freq) - 1)` gives
`round(5.75) = 6` — refuting the claim that the computed value is the
rounded one. -/
theorem claim_C6_cex :
    Tm4c123x.i2c0 54000000 400000 = some [CtorEvent.controlPower, CtorEvent.reset,
      CtorEvent.writeMCR true false, CtorEvent.writeMTPR 5] ∧
    tprSpecRounded 54000000 400000 = 6 ∧ (5 : Nat) ≠ 6 := by
  refine ⟨?_, ?_, by decide⟩
  · rw [Tm4c123x.i2c0]
    norm_num [wrap32]
  · norm_num [tprSpecRounded, round_eq]
    decide

/-- C6 (amended): construction writes the control register with only the
master-function-enable bit set, and writes to the timing register exactly
the value `((sysclk / (2*10*freq)) - 1) as u8` computed with u32
truncating division and wrapping subtraction (floor, not round). -/
theorem claim_C6_amended (sysclk freq : Nat) (h : wrap32 (2 * 10 * freq) ≠ 0) :
    Tm4c123x.i2c0 sysclk freq = some [CtorEvent.controlPower, CtorEvent.reset,
      CtorEvent.writeMCR true false,
      CtorEvent.writeMTPR
        (wrap32 (sysclk / wrap32 (2 * 10 * freq) + 4294967296 - 1) % 256)] := by
  rw [Tm4c123x.i2c0]
  simp only [h, if_false]

/-- C7 (counterexample): construction with requested bus frequency 0
divides by zero (a Rust panic, modelled as `none`) — refuting the claim
that construction completes for every frequency including zero. -/
theorem claim_C7_cex : Tm4c123x.i2c0 16000000 0 = none := rfl

/-- C7 (amended): construction never validates the requested frequency —
for every system clock and every frequency whose u32 divisor
`2*10*freq mod 2^32` is nonzero (all frequencies except 0 and multiples
of 2^30, where the product wraps to zero and the division panics),
construction completes and writes some (possibly nonsensical) timing
value. -/
theorem claim_C7_amended (sysclk freq : Nat) (h : wrap32 (2 * 10 * freq) ≠ 0) :
    ∃ t, Tm4c123x.i2c0 sysclk freq = some [CtorEvent.controlPower, CtorEvent.reset,
      CtorEvent.writeMCR true false, CtorEvent.writeMTPR t] := by
  refine ⟨wrap32 (sysclk / wrap32 (2 * 10 * freq) + 4294967296 - 1) % 256, ?_⟩
  rw [Tm4c123x.i2c0]
  simp only [h, if_false]

/-- C8: every `busy_wait!` poll (a) performs the fixed settling `delay(2)`
before the first status read and then only reads the status register,
(b) never returns over a status supply in which no read ever shows the
error flag, the arbitration-loss flag, or the monitored condition — the
tight loop has no timeout — and (c) returns at the first status read
showing one of the three conditions. -/
theorem claim_C8 :
    (∀ (cond : Mcs → Bool) (s s2 : HwState) (r : Option Error),
      busy_wait cond s = some (s2, r) →
      ∃ ms, s2.trace = s.trace ++ Event.delay 2 :: ms.map Event.readMCS ∧
        s.status = ms ++ s2.status) ∧
    (∀ (cond : Mcs → Bool) (s : HwState),
      (∀ m ∈ s.status, m.error = false ∧ m.arblst = false ∧ cond m = false) →
      busy_wait cond s = none) ∧
    (∀ (cond : Mcs → Bool) (s : HwState) (pre : List Mcs) (m : Mcs) (rest : List Mcs),
      s.status = pre ++ m :: rest →
      (∀ p ∈ pre, p.error = false ∧ p.arblst = false ∧ cond p = false) →
      (m.error = true ∨ m.arblst = true ∨ cond m = true) →
      ∃ s2 r, busy_wait cond s = some (s2, r) ∧ s2.status = rest ∧
        s2.trace = s.trace ++ Event.delay 2 :: (pre ++ [m]).map Event.readMCS) := by
  refine ⟨?_, ?_, ?_⟩
  · intro cond s s2 r h
    obtain ⟨ms, h1, h2, -⟩ := busy_wait_some_spec cond s s2 r h
    exact ⟨ms, by simpa using h1, h2⟩
  · intro cond s h
    rw [busy_wait, pollLoop_none cond s.status _ h]
  · intro cond s pre m rest hst hpre hm
    by_cases hE : m.error = true
    · refine ⟨⟨rest, s.dataIn,
        (s.trace ++ [Event.delay 2]) ++ (pre ++ [m]).map Event.readMCS⟩,
        some (classify m), ?_, rfl, by simp⟩
      rw [busy_wait, hst, pollLoop_skip cond pre (m :: rest) _ hpre,
        pollLoop_head_error cond m rest _ hE]
      simp
    · rw [Bool.not_eq_true] at hE
      by_cases hA : m.arblst = true
      · refine ⟨⟨rest, s.dataIn,
          (s.trace ++ [Event.delay 2]) ++ (pre ++ [m]).map Event.readMCS⟩,
          some Error.Arbitration, ?_, rfl, by simp⟩
        rw [busy_wait, hst, pollLoop_skip cond pre (m :: rest) _ hpre,
          pollLoop_head_arb cond m rest _ hE hA]
        simp
      · rw [Bool.not_eq_true] at hA
        have hc : cond m = true := by
          rcases hm with h | h | h
          · exact absurd h (by simp [hE])
          · exact absurd h (by simp [hA])
          · exact h
        refine ⟨⟨rest, s.dataIn,
          (s.trace ++ [Event.delay 2]) ++ (pre ++ [m]).map Event.readMCS⟩,
          none, ?_, rfl, by simp⟩
        rw [busy_wait, hst, pollLoop_skip cond pre (m :: rest) _ hpre,
          pollLoop_head_break cond m rest _ hE hA hc]
        simp

end Claims

namespace Claims

open I2cHw Tm4c123x

/-- C1: for every non-empty byte sequence a successful `write` (and for
every non-empty buffer a successful `read`) performs exactly one
command-register write per byte; exactly one of them carries the STOP bit
and it is the last, exactly one carries the START bit and it is the
first, and for length 1 the single command carries both. -/
theorem claim_C1 (addr : Nat) (s : HwState) (hs : s.trace = []) :
    (∀ (bytes : List Nat) (s2 : HwState), bytes ≠ [] →
      write addr bytes s = some (s2, Except.ok ()) →
      (cmdsOf s2.trace).length = bytes.length ∧
      (cmdsOf s2.trace).countP (fun c => c.stop) = 1 ∧
      ((cmdsOf s2.trace).getLastD ⟨false, false, false, false⟩).stop = true ∧
      (cmdsOf s2.trace).countP (fun c => c.start) = 1 ∧
      ((cmdsOf s2.trace).headD ⟨false, false, false, false⟩).start = true ∧
      (bytes.length = 1 →
        ∃ c, cmdsOf s2.trace = [c] ∧ c.start = true ∧ c.stop = true)) ∧
    (∀ (buffer : List Nat) (s2 : HwState) (buf2 : List Nat), buffer ≠ [] →
      read addr buffer s = some (s2, buf2, Except.ok ()) →
      (cmdsOf s2.trace).length = buffer.length ∧
      (cmdsOf s2.trace).countP (fun c => c.stop) = 1 ∧
      ((cmdsOf s2.trace).getLastD ⟨false, false, false, false⟩).stop = true ∧
      (cmdsOf s2.trace).countP (fun c => c.start) = 1 ∧
      ((cmdsOf s2.trace).headD ⟨false, false, false, false⟩).start = true ∧
      (buffer.length = 1 →
        ∃ c, cmdsOf s2.trace = [c] ∧ c.start = true ∧ c.stop = true)) := by
  constructor
  · intro bytes s2 hne hw
    cases bytes with
    | nil => exact absurd rfl hne
    | cons first rest =>
      cases rest with
      | nil =>
        have hcf := write_ok_single addr first s s2 hw
        have key : cmdsOf s2.trace = [⟨true, true, true, false⟩] := by
          rw [← cmdsOf_busEvents, hcf, hs]
          simp
        rw [key]
        exact ⟨rfl, rfl, rfl, rfl, rfl,
          fun _ => ⟨⟨true, true, true, false⟩, rfl, rfl, rfl⟩⟩
      | cons b2 rest2 =>
        have hcf := write_ok_multi addr first (b2 :: rest2) (by simp) s s2 hw
        have key : cmdsOf s2.trace = ⟨true, true, false, false⟩ ::
            (List.replicate rest2.length ⟨true, false, false, false⟩ ++
              [⟨true, false, true, false⟩]) := by
          rw [← cmdsOf_busEvents, hcf, hs]
          simp
        rw [key]
        refine ⟨?_, ?_, ?_, ?_, rfl, ?_⟩
        · simp
        · simp [List.countP_cons, List.countP_append, List.countP_replicate]
        · rw [← List.cons_append, List.getLastD_concat]
        · simp [List.countP_cons, List.countP_append, List.countP_replicate]
        · intro hl
          simp [List.length_cons] at hl
  · intro buffer s2 buf2 hne hr
    cases buffer with
    | nil => exact absurd rfl hne
    | cons x rest =>
      cases rest with
      | nil =>
        have hcf := read_ok_single addr x s s2 buf2 hr
        have key : cmdsOf s2.trace = [⟨true, true, true, false⟩] := by
          rw [← cmdsOf_busEvents, hcf, hs]
          simp
        rw [key]
        exact ⟨rfl, rfl, rfl, rfl, rfl,
          fun _ => ⟨⟨true, true, true, false⟩, rfl, rfl, rfl⟩⟩
      | cons b2 rest2 =>
        have hcf := read_ok_multi addr x (b2 :: rest2) (by simp) s s2 buf2 hr
        have key : cmdsOf s2.trace = ⟨true, true, false, true⟩ ::
            (List.replicate rest2.length ⟨true, false, false, true⟩ ++
              [⟨true, false, true, false⟩]) := by
          rw [← cmdsOf_busEvents, hcf, hs]
          simp
        rw [key]
        refine ⟨?_, ?_, ?_, ?_, rfl, ?_⟩
        · simp
        · simp [List.countP_cons, List.countP_append, List.countP_replicate]
        · rw [← List.cons_append, List.getLastD_concat]
        · simp [List.countP_cons, List.countP_append, List.countP_replicate]
        · intro hl
          simp [List.length_cons] at hl

end Claims

namespace Claims

open I2cHw Tm4c123x

/-- C2: a successful `write_read` with non-empty send bytes and non-empty
receive buffer issues no STOP in any command before the second (read
direction) address-register write; that second address write carries the
receive bit; the first incoming command carries the (repeated) START bit;
and the incoming commands are RUN+START+STOP for a single slot, else
RUN+START+ACK, RUN+ACK per interior slot, RUN+STOP for the last. -/
theorem claim_C2 (addr sendFirst : Nat) (sendRest : List Nat) (recvFirst : Nat)
    (recvRest : List Nat) (s s2 : HwState) (buf2 : List Nat) (hs : s.trace = [])
    (h : write_read addr (sendFirst :: sendRest) (recvFirst :: recvRest) s =
      some (s2, buf2, Except.ok ())) :
    ∃ pre post, busEvents s2.trace = pre ++ [Event.writeMSA addr true] ++ post ∧
      (∀ c : Cmd, Event.writeMCS c ∈ pre → c.stop = false) ∧
      post = (if recvRest = [] then [Event.writeMCS ⟨true, true, true, false⟩]
        else Event.writeMCS ⟨true, true, false, true⟩ ::
          (List.replicate (recvRest.length - 1)
            (Event.writeMCS ⟨true, false, false, true⟩) ++
           [Event.writeMCS ⟨true, false, true, false⟩])) ∧
      (∃ (c : Cmd) (tail : List Event),
        post = Event.writeMCS c :: tail ∧ c.start = true) := by
  have hcf := write_read_ok addr sendFirst sendRest recvFirst recvRest s s2 buf2 h
  refine ⟨[Event.writeMSA addr false, Event.writeMCS ⟨true, true, false, false⟩] ++
    List.replicate sendRest.length (Event.writeMCS ⟨true, false, false, false⟩),
    _, ?_, ?_, rfl, ?_⟩
  · rw [hcf, hs]
    simp
  · intro c hc
    simp only [List.mem_append, List.mem_cons, List.mem_replicate,
      List.not_mem_nil, or_false, Event.writeMCS.injEq, reduceCtorEq] at hc
    rcases hc with (h1 | h1) | ⟨-, h1⟩
    · exact absurd h1 (by simp)
    · simp [h1]
    · simp [h1]
  · cases recvRest with
    | nil =>
      exact ⟨⟨true, true, true, false⟩, [], by simp, rfl⟩
    | cons r2 rr2 =>
      exact ⟨⟨true, true, false, true⟩,
        List.replicate ((r2 :: rr2).length - 1)
          (Event.writeMCS ⟨true, false, false, true⟩) ++
          [Event.writeMCS ⟨true, false, true, false⟩], by simp, rfl⟩

/-- C10: if `read` (or the incoming phase of `write_read`) aborts with an
error after capturing some k bytes, the returned buffer has the original
length and every slot at index ≥ k holds its original value — only the
captured prefix is modified.  (`write` borrows its byte sequence
immutably; the embedding's `write` does not produce a modified sequence
at all.) -/
theorem claim_C10 :
    (∀ (addr : Nat) (buffer : List Nat) (s s2 : HwState) (buf2 : List Nat)
      (e : Error), read addr buffer s = some (s2, buf2, Except.error e) →
      ∃ k, k ≤ buffer.length ∧ buf2.length = buffer.length ∧
        ∀ i, k ≤ i → buf2.getD i 0 = buffer.getD i 0) ∧
    (∀ (addr : Nat) (bytes buffer : List Nat) (s s2 : HwState) (buf2 : List Nat)
      (e : Error), write_read addr bytes buffer s = some (s2, buf2, Except.error e) →
      ∃ k, k ≤ buffer.length ∧ buf2.length = buffer.length ∧
        ∀ i, k ≤ i → buf2.getD i 0 = buffer.getD i 0) := by
  constructor
  · intro addr buffer s s2 buf2 e h
    obtain ⟨capt, hle, rfl⟩ := read_err_frame addr buffer s s2 buf2 e h
    exact ⟨capt.length, hle, append_drop_length capt buffer hle,
      fun i hi => append_drop_getD capt buffer i hi⟩
  · intro addr bytes buffer s s2 buf2 e h
    obtain ⟨capt, hle, rfl⟩ := write_read_err_frame addr bytes buffer s s2 buf2 e h
    exact ⟨capt.length, hle, append_drop_length capt buffer hle,
      fun i hi => append_drop_getD capt buffer i hi⟩

end Claims

namespace Claims

open I2cHw Tm4c123x

/-- Witness for C1: a concrete successful one-byte `write` run, with its
command pattern checked through `claim_C1`. -/
theorem claim_C1_wit :
    (cmdsOf [Event.writeMSA 80 false, Event.writeMDR 170, Event.delay 2,
      Event.readMCS ⟨false, false, false, false, false, false⟩,
      Event.writeMCS ⟨true, true, true, false⟩, Event.delay 2,
      Event.readMCS ⟨false, false, false, false, false, false⟩]).length = 1 ∧
    (cmdsOf [Event.writeMSA 80 false, Event.writeMDR 170, Event.delay 2,
      Event.readMCS ⟨false, false, false, false, false, false⟩,
      Event.writeMCS ⟨true, true, true, false⟩, Event.delay 2,
      Event.readMCS ⟨false, false, false, false, false, false⟩]).countP
        (fun c => c.stop) = 1 ∧
    ((cmdsOf [Event.writeMSA 80 false, Event.writeMDR 170, Event.delay 2,
      Event.readMCS ⟨false, false, false, false, false, false⟩,
      Event.writeMCS ⟨true, true, true, false⟩, Event.delay 2,
      Event.readMCS ⟨false, false, false, false, false, false⟩]).getLastD
        ⟨false, false, false, false⟩).stop = true := by
  have h := (claim_C1 80 ⟨[⟨false, false, false, false, false, false⟩,
      ⟨false, false, false, false, false, false⟩], [], []⟩ rfl).1 [170]
    ⟨[], [], [Event.writeMSA 80 false, Event.writeMDR 170, Event.delay 2,
      Event.readMCS ⟨false, false, false, false, false, false⟩,
      Event.writeMCS ⟨true, true, true, false⟩, Event.delay 2,
      Event.readMCS ⟨false, false, false, false, false, false⟩]⟩
    (by simp) rfl
  exact ⟨h.1, h.2.1, h.2.2.1⟩

/-- Witness for C2: a concrete successful `write_read` of one byte out
and one byte in, with the phase structure checked through `claim_C2`. -/
theorem claim_C2_wit :
    ∃ pre post, busEvents [Event.writeMSA 80 false, Event.writeMDR 16, Event.delay 2,
      Event.readMCS ⟨false, false, false, false, false, false⟩,
      Event.writeMCS ⟨true, true, false, false⟩, Event.delay 2,
      Event.readMCS ⟨false, false, false, false, false, false⟩,
      Event.writeMSA 80 true, Event.writeMCS ⟨true, true, true, false⟩, Event.delay 2,
      Event.readMCS ⟨false, false, false, false, false, false⟩, Event.readMDR 7] =
        pre ++ [Event.writeMSA 80 true] ++ post ∧
      (∀ c : Cmd, Event.writeMCS c ∈ pre → c.stop = false) ∧
      post = [Event.writeMCS ⟨true, true, true, false⟩] ∧
      (∃ (c : Cmd) (tail : List Event),
        post = Event.writeMCS c :: tail ∧ c.start = true) := by
  exact claim_C2 80 16 [] 0 []
    ⟨[⟨false, false, false, false, false, false⟩,
      ⟨false, false, false, false, false, false⟩,
      ⟨false, false, false, false, false, false⟩], [7, 8, 9], []⟩
    ⟨[], [8, 9], [Event.writeMSA 80 false, Event.writeMDR 16, Event.delay 2,
      Event.readMCS ⟨false, false, false, false, false, false⟩,
      Event.writeMCS ⟨true, true, false, false⟩, Event.delay 2,
      Event.readMCS ⟨false, false, false, false, false, false⟩,
      Event.writeMSA 80 true, Event.writeMCS ⟨true, true, true, false⟩, Event.delay 2,
      Event.readMCS ⟨false, false, false, false, false, false⟩, Event.readMDR 7]⟩
    [7] rfl rfl

/-- Witness for C4: one status read with error and address-NACK set —
`busy_wait` classifies it as `AdrAck` via `claim_C4`. -/
theorem claim_C4_wit :
    ∃ s2, busy_wait busyClear ⟨[⟨true, true, false, false, true, true⟩], [], []⟩ =
      some (s2, some (classify ⟨true, true, false, false, true, true⟩)) ∧
      classify ⟨true, true, false, false, true, true⟩ =
        (if (⟨true, true, false, false, true, true⟩ : Mcs).adrack then Error.AdrAck
          else if (⟨true, true, false, false, true, true⟩ : Mcs).datack then
            Error.DataAck else Error.Bus) ∧
      ((⟨true, true, false, false, true, true⟩ : Mcs).adrack = true →
        classify ⟨true, true, false, false, true, true⟩ = Error.AdrAck ∧
        classify ⟨true, true, false, false, true, true⟩ ≠ Error.DataAck ∧
        classify ⟨true, true, false, false, true, true⟩ ≠ Error.Bus) := by
  exact claim_C4 busyClear ⟨[⟨true, true, false, false, true, true⟩], [], []⟩
    [] ⟨true, true, false, false, true, true⟩ [] rfl (by simp) rfl

/-- Witness for C5 (amended): one status read with arbitration loss set
and error clear — `busy_wait` returns `Arbitration` via
`claim_C5_amended`. -/
theorem claim_C5_amended_wit :
    ∃ s2, busy_wait busyClear ⟨[⟨false, false, false, true, true, true⟩], [], []⟩ =
      some (s2, some Error.Arbitration) := by
  exact claim_C5_amended busyClear ⟨[⟨false, false, false, true, true, true⟩], [], []⟩
    [] ⟨false, false, false, true, true, true⟩ [] rfl (by simp) rfl rfl

/-- Witness for C6 (amended): at 80 MHz / 100 kHz construction writes
timing value 39 = (80000000 / 2000000) - 1, via `claim_C6_amended`. -/
theorem claim_C6_amended_wit :
    Tm4c123x.i2c0 80000000 100000 = some [CtorEvent.controlPower, CtorEvent.reset,
      CtorEvent.writeMCR true false, CtorEvent.writeMTPR 39] := by
  exact claim_C6_amended 80000000 100000 (by norm_num [wrap32])

/-- Witness for C7 (amended): at 80 MHz / 400 kHz construction completes
and writes some timing value, via `claim_C7_amended`. -/
theorem claim_C7_amended_wit :
    ∃ t, Tm4c123x.i2c0 80000000 400000 = some [CtorEvent.controlPower,
      CtorEvent.reset, CtorEvent.writeMCR true false, CtorEvent.writeMTPR t] := by
  exact claim_C7_amended 80000000 400000 (by norm_num [wrap32])

/-- Witness for C8: (a) a successful poll's trace starts with the settling
delay; (b) over a status supply that stays busy with no error the poll
never returns; (c) an immediately-idle status makes it return at the
first read — all through `claim_C8`. -/
theorem claim_C8_wit :
    (∃ ms, ([Event.delay 2,
        Event.readMCS ⟨false, false, false, false, false, false⟩] : List Event) =
        [] ++ Event.delay 2 :: ms.map Event.readMCS ∧
      [⟨false, false, false, false, false, false⟩] = ms ++ []) ∧
    busy_wait busyClear ⟨[⟨false, false, false, false, true, false⟩], [], []⟩ = none ∧
    (∃ s2 r, busy_wait busyClear
        ⟨[⟨false, false, false, false, false, false⟩], [], []⟩ = some (s2, r) ∧
      s2.status = [] ∧
      s2.trace = [] ++ Event.delay 2 ::
        (([] ++ [(⟨false, false, false, false, false, false⟩ : Mcs)]).map
          Event.readMCS)) := by
  refine ⟨?_, ?_, ?_⟩
  · exact claim_C8.1 busyClear ⟨[⟨false, false, false, false, false, false⟩], [], []⟩
      ⟨[], [], [Event.delay 2,
        Event.readMCS ⟨false, false, false, false, false, false⟩]⟩ none rfl
  · exact claim_C8.2.1 busyClear
      ⟨[⟨false, false, false, false, true, false⟩], [], []⟩ (by decide)
  · exact claim_C8.2.2 busyClear
      ⟨[⟨false, false, false, false, false, false⟩], [], []⟩ []
      ⟨false, false, false, false, false, false⟩ [] rfl (by simp)
      (Or.inr (Or.inr rfl))

/-- Witness for C10: a three-slot `read` aborted by a bus error after one
captured byte leaves slots 1 and 2 at their original values, via
`claim_C10`. -/
theorem claim_C10_wit :
    ∃ k, k ≤ ([0, 0, 0] : List Nat).length ∧
      ([7, 0, 0] : List Nat).length = ([0, 0, 0] : List Nat).length ∧
      ∀ i, k ≤ i → ([7, 0, 0] : List Nat).getD i 0 = ([0, 0, 0] : List Nat).getD i 0 := by
  exact claim_C10.1 80 [0, 0, 0]
    ⟨[⟨false, false, false, false, false, false⟩,
      ⟨false, false, false, false, false, false⟩,
      ⟨true, false, false, false, false, false⟩], [7, 8, 9], []⟩
    ⟨[], [8, 9], [Event.writeMSA 80 true, Event.delay 2,
      Event.readMCS ⟨false, false, false, false, false, false⟩,
      Event.writeMCS ⟨true, true, false, true⟩, Event.delay 2,
      Event.readMCS ⟨false, false, false, false, false, false⟩, Event.readMDR 7,
      Event.writeMCS ⟨true, false, false, true⟩, Event.delay 2,
      Event.readMCS ⟨true, false, false, false, false, false⟩]⟩
    [7, 0, 0] Error.Bus rfl

end Claims
